import Mathlib

/-!
# AegisAI — verification of the rule engine and the grade-gated pipeline

Shallow embedding of the decision logic of the AegisAI repository:

* `rules/engine.py` — rule cache, condition evaluator, anomaly scorer;
* `retrieval/local_retriever.py` and `retrieval/azure_retriever.py` —
  grade-based visibility filtering and grade normalization;
* `api/main.py` — confidence blending, risk-reason assembly,
  restricted-content peek, and the rule-append endpoint.

Python dictionaries and YAML/JSON documents are embedded as the inductive
`Value` type (assoc-list dictionaries); external collaborators (the `re`
module, ISO-8601 parsing, the Azure search backend) enter as explicit
function or list parameters, so every definition stays executable.
-/

namespace Aegis

/-- A Python/YAML value: `None`, booleans, integers, strings, lists and
string-keyed dictionaries (assoc lists). -/
inductive Value where
  | vNull : Value
  | vBool : Bool → Value
  | vInt : Int → Value
  | vStr : String → Value
  | vList : List Value → Value
  | vDict : List (String × Value) → Value
deriving Repr

/-- Structural equality on `Value`, embedding Python `==` on the values the
rule documents use (`None == None` is `True`; values of different shapes
compare unequal). -/
def Value.beq : Value → Value → Bool
  | .vNull, .vNull => true
  | .vBool a, .vBool b => a == b
  | .vInt a, .vInt b => a == b
  | .vStr a, .vStr b => a == b
  | .vList [], .vList [] => true
  | .vList (x :: xs), .vList (y :: ys) =>
      Value.beq x y && Value.beq (.vList xs) (.vList ys)
  | .vDict [], .vDict [] => true
  | .vDict ((k, v) :: xs), .vDict ((k', v') :: ys) =>
      k == k' && Value.beq v v' && Value.beq (.vDict xs) (.vDict ys)
  | _, _ => false

instance : BEq Value := ⟨Value.beq⟩

/-- A Python dictionary with string keys. -/
abbrev Dict := List (String × Value)

/-- `d.get(k)` as an `Option` (first binding wins; embedded dictionaries
have unique keys). -/
def dictGet? (d : Dict) (k : String) : Option Value :=
  match d.find? (fun kv => kv.1 == k) with
  | some kv => some kv.2
  | none => none

/-- `d.get(k)`: Python returns `None` when the key is absent. -/
def dictGet (d : Dict) (k : String) : Value :=
  (dictGet? d k).getD .vNull

/-- `k in d` for a Python dictionary. -/
def dictHas (d : Dict) (k : String) : Bool :=
  (dictGet? d k).isSome

/-- `d[k] = v`: overwrite the binding of `k` (appending when absent). -/
def dictSet (d : Dict) (k : String) (v : Value) : Dict :=
  if dictHas d k then d.map (fun kv => if kv.1 == k then (k, v) else kv)
  else d ++ [(k, v)]

/-- Python truthiness of a value (`bool(v)`). -/
def truthy : Value → Bool
  | .vNull => false
  | .vBool b => b
  | .vInt n => n != 0
  | .vStr s => s ≠ ""
  | .vList xs => !xs.isEmpty
  | .vDict d => !d.isEmpty

/-- Boolean prefix test on character lists. -/
def listStartsWith : List Char → List Char → Bool
  | [], _ => true
  | _ :: _, [] => false
  | a :: as, b :: bs => a == b && listStartsWith as bs

/-- Boolean contiguous-sublist test on character lists. -/
def listIsInfixB (needle : List Char) : List Char → Bool
  | [] => needle.isEmpty
  | c :: cs => listStartsWith needle (c :: cs) || listIsInfixB needle cs

/-- Substring containment, embedding Python's `needle in haystack` on
strings, at the character-list level. -/
def strContains (hay needle : String) : Bool :=
  listIsInfixB needle.toList hay.toList

end Aegis

namespace Aegis

/-! ## `rules/engine.py` — condition evaluator

`eval_rule` dispatches on operator strings; `re.search` and
`datetime.fromisoformat(...).hour` are external collaborators, passed in as
`rx : String → String → Bool` (case-insensitive pattern search) and
`hourOf : String → Option Int` (`none` embeds a parse exception).
A `check` that raises in Python is embedded as `none`. -/

/-- One `{field, op, value}` condition leaf of a rule's `when` clause
(`cond.get("value")` yields Python `None`, i.e. `Value.vNull`, when the
key is absent). -/
structure Cond where
  field : String
  op : String
  value : Value
deriving Repr

/-- A rule's `when` clause: the evaluator looks for an `"all"` key first,
then an `"any"` key. -/
structure WhenClause where
  allConds : Option (List Cond)
  anyConds : Option (List Cond)
deriving Repr

/-- The part of a rule document `eval_rule` reads: its `when` clause. -/
structure EngineRule where
  whenClause : WhenClause
deriving Repr

/-- `_get(d, path)`: walk a dotted path through nested dictionaries,
returning `None` (`vNull`) as soon as the current value is not a
dictionary or the key is absent. -/
def getPath : Value → List String → Value
  | cur, [] => cur
  | cur, p :: ps =>
    match cur with
    | .vDict d =>
      match dictGet? d p with
      | some v => getPath v ps
      | none => .vNull
    | _ => .vNull

/-- Field lookup in `check`: `_get(ev, field)` when the field name contains
a dot, else `ev.get(field)`. -/
def fieldLookup (ev : Dict) (field : String) : Value :=
  if field.toList.contains '.' then getPath (.vDict ev) (field.splitOn ".")
  else dictGet ev field

/-- `v or 0` — Python's falsy-to-zero coercion used by `gt`/`gte`. -/
def orZero (v : Value) : Value := if truthy v then v else .vInt 0

/-- `v or ""` — Python's falsy-to-empty coercion used by the regex ops. -/
def orEmpty (v : Value) : Value := if truthy v then v else .vStr ""

/-- Python `>` between the value shapes the engine meets; anything else
raises a `TypeError`, embedded as `none`. -/
def pyGt : Value → Value → Option Bool
  | .vInt a, .vInt b => some (a > b)
  | .vStr a, .vStr b => some (a > b)
  | _, _ => none

/-- Python `>=` between the value shapes the engine meets. -/
def pyGe : Value → Value → Option Bool
  | .vInt a, .vInt b => some (a ≥ b)
  | .vStr a, .vStr b => some (a ≥ b)
  | _, _ => none

/-- Python `v in val` for the `in` operator: list membership, substring
test on strings, key test on dictionaries; a non-container right-hand side
raises, embedded as `none`. -/
def pyMem (v val : Value) : Option Bool :=
  match val with
  | .vList xs => some (xs.any (fun x => Value.beq x v))
  | .vStr s =>
    match v with
    | .vStr t => some (strContains s t)
    | _ => none
  | .vDict kvs =>
    match v with
    | .vStr k => some (kvs.any (fun kv => kv.1 == k))
    | _ => some false
  | _ => none

/-- `between_hours(ts, start, end)`: extract the hour via the timestamp
parser, then test the half-open window, wrapping midnight when
`start > end`. -/
def between_hours (hourOf : String → Option Int) (ts : String)
    (s e : Int) : Option Bool :=
  match hourOf ts with
  | none => none
  | some h => if s ≤ e then some (s ≤ h && h < e) else some (h ≥ s || h < e)

/-- The `check(cond)` closure of `eval_rule`: operator dispatch on one
condition leaf; an unknown operator yields `False`. -/
def check (rx : String → String → Bool) (hourOf : String → Option Int)
    (ev : Dict) (cond : Cond) : Option Bool :=
  let v := fieldLookup ev cond.field
  if cond.op = "equals" then some (Value.beq v cond.value)
  else if cond.op = "in" then pyMem v cond.value
  else if cond.op = "in_set" then
    some (match cond.value with
          | .vList xs => xs.any (fun x => Value.beq x v)
          | _ => false)
  else if cond.op = "gt" then pyGt (orZero v) cond.value
  else if cond.op = "gte" then pyGe (orZero v) cond.value
  else if cond.op = "regex" then
    match cond.value, orEmpty v with
    | .vStr pat, .vStr s => some (rx pat s)
    | _, _ => none
  else if cond.op = "not_regex" then
    match cond.value, orEmpty v with
    | .vStr pat, .vStr s => some (!rx pat s)
    | _, _ => none
  else if cond.op = "between_hours" then
    match v, cond.value with
    | .vStr ts, .vList (.vInt a :: .vInt b :: _) => between_hours hourOf ts a b
    | _, _ => none
  else some false

/-- `all(check(c) for c in cs)` with short-circuiting and exception
propagation. -/
def evalAll (f : Cond → Option Bool) : List Cond → Option Bool
  | [] => some true
  | c :: cs =>
    match f c with
    | none => none
    | some false => some false
    | some true => evalAll f cs

/-- `any(check(c) for c in cs)` with short-circuiting and exception
propagation. -/
def evalAny (f : Cond → Option Bool) : List Cond → Option Bool
  | [] => some false
  | c :: cs =>
    match f c with
    | none => none
    | some true => some true
    | some false => evalAny f cs

/-- `eval_rule(rule, ev)`: combine the `all`/`any` condition list of the
rule's `when` clause; a clause with neither key evaluates to `False`. -/
def eval_rule (rx : String → String → Bool) (hourOf : String → Option Int)
    (rule : EngineRule) (ev : Dict) : Option Bool :=
  match rule.whenClause.allConds with
  | some cs => evalAll (check rx hourOf ev) cs
  | none =>
    match rule.whenClause.anyConds with
    | some cs => evalAny (check rx hourOf ev) cs
    | none => some false

/-! ## `rules/engine.py` — `analyze_events`

The live `analyze_events` reads the rule cache, then runs a placeholder
loop whose body is `pass`: `matched_signals` stays empty and the anomaly
branch is dead. The cache read (`get_rules()`) is made an explicit
parameter. -/

/-- An anomaly dictionary as `analyze_events` would build it. -/
structure AnomalyDict where
  event_id : Value
  signals : List String
  risk_score : Int
  explain : String
deriving Repr

/-- `", ".join(xs)`. -/
def joinComma (xs : List String) : String := String.intercalate ", " xs

/-- The live `analyze_events(events)`: for each event the per-rule loop
body is `pass`, so `matched_signals` and `risk` keep their initial values
and an anomaly is appended only when `matched_signals` is non-empty. -/
def analyze_events (rules : List Value) (events : List Dict) :
    List AnomalyDict :=
  events.foldl
    (fun anomalies ev =>
      let st : List String × Int :=
        rules.foldl (fun acc _r => acc) (([] : List String), (0 : Int))
      let matched_signals := st.1
      let risk := st.2
      if matched_signals.isEmpty then anomalies
      else anomalies ++
        [{ event_id := (dictGet? ev "event_id").getD (.vStr "")
           signals := matched_signals
           risk_score := min 100 (max 10 risk)
           explain := "Matched rules: " ++ joinComma matched_signals }])
    []

end Aegis

namespace Aegis

/-! ## `rules/engine.py` — rule cache concurrency (`set_rules` / `get_rules`)

The cache is a shared list guarded by one re-entrant lock:

```
def set_rules(rules):             def get_rules():
    with _LOCK:                       with _LOCK:
        _RULES_CACHE.clear()              return list(_RULES_CACHE)
        _RULES_CACHE.extend(rules)
```

One writer (publishing `newRules`) and one reader are modelled as programs
of atomic steps over a shared state; a schedule picks which thread moves.
A step that is not enabled (taking the lock that is held, or moving a
finished thread) makes the whole schedule invalid (`none`), which covers
every real interleaving since a blocked thread simply does not move. -/

/-- Thread identifier: the writer (`set_rules`) or the reader
(`get_rules`). -/
inductive Tid where
  | w : Tid
  | r : Tid
deriving DecidableEq, Repr

/-- Shared state of the cache model: each thread's program counter, the
lock owner, the cache content, and the value the reader returned (if it
has read). Writer pcs: 0 before `with _LOCK`, 1 before `clear`, 2 before
`extend`, 3 before release, 4 done. Reader pcs: 0 before `with _LOCK`,
1 before the copy, 2 before release, 3 done. -/
structure CacheState (R : Type) where
  wpc : Nat
  rpc : Nat
  lock : Option Tid
  cache : List R
  readResult : Option (List R)
deriving DecidableEq, Repr

/-- One atomic move of the writer `set_rules(newRules)`. -/
def wStep {R : Type} (newRules : List R) (s : CacheState R) :
    Option (CacheState R) :=
  match s.wpc with
  | 0 => if s.lock = none then some { s with lock := some .w, wpc := 1 } else none
  | 1 => some { s with cache := [], wpc := 2 }
  | 2 => some { s with cache := s.cache ++ newRules, wpc := 3 }
  | 3 => some { s with lock := none, wpc := 4 }
  | _ => none

/-- One atomic move of the reader `get_rules()`. -/
def rStep {R : Type} (s : CacheState R) : Option (CacheState R) :=
  match s.rpc with
  | 0 => if s.lock = none then some { s with lock := some .r, rpc := 1 } else none
  | 1 => some { s with readResult := some s.cache, rpc := 2 }
  | 2 => some { s with lock := none, rpc := 3 }
  | _ => none

/-- Dispatch one scheduled step to its thread. -/
def step {R : Type} (newRules : List R) (t : Tid) (s : CacheState R) :
    Option (CacheState R) :=
  match t with
  | .w => wStep newRules s
  | .r => rStep s

/-- Run a schedule (a list of thread choices); `none` when some scheduled
step was not enabled. -/
def runSched {R : Type} (newRules : List R) :
    List Tid → CacheState R → Option (CacheState R)
  | [], s => some s
  | t :: ts, s =>
    match step newRules t s with
    | none => none
    | some s' => runSched newRules ts s'

/-- Initial state: cache holds the old rule set, lock free, nothing read. -/
def initCache {R : Type} (oldRules : List R) : CacheState R :=
  { wpc := 0, rpc := 0, lock := none, cache := oldRules, readResult := none }

/-- Reachability invariant of the cache model: the cache content is
determined by the writer's pc (old set before `clear`, empty between
`clear` and `extend`, new set afterwards), the writer and reader own the
lock throughout their critical sections, and any value the reader has
returned is the full old or full new set. -/
def cacheInv {R : Type} (oldRules newRules : List R) (s : CacheState R) :
    Prop :=
  (s.wpc = 0 → s.cache = oldRules) ∧
  (s.wpc = 1 → s.cache = oldRules ∧ s.lock = some .w) ∧
  (s.wpc = 2 → s.cache = [] ∧ s.lock = some .w) ∧
  (s.wpc = 3 → s.cache = newRules ∧ s.lock = some .w) ∧
  (s.wpc = 4 → s.cache = newRules) ∧
  s.wpc ≤ 4 ∧
  ((s.rpc = 1 ∨ s.rpc = 2) → s.lock = some .r) ∧
  (s.readResult = none ∨ s.readResult = some oldRules ∨
    s.readResult = some newRules)

end Aegis

namespace Aegis

/-! ## `retrieval/local_retriever.py` — grade filter and keyword search -/

/-- One record of `policies.jsonl` as `get_chunks` reads it: every field
is accessed with `.get`, so each is optional. -/
structure PolicyRec where
  visibilityF : Option String
  allowedGradesF : Option (List String)
  chunkTextF : Option String
  tagsF : Option (List String)
deriving DecidableEq, Repr

/-- `rec.get("visibility", "public")`. -/
def PolicyRec.visibilityD (rec : PolicyRec) : String :=
  rec.visibilityF.getD "public"

/-- `rec.get("allowed_grades") or []`. -/
def PolicyRec.gradesD (rec : PolicyRec) : List String :=
  match rec.allowedGradesF with
  | some gs => gs
  | none => []

/-- The `allowed(rec)` closure of `get_chunks`: public records pass; a
falsy grade (absent or empty) sees nothing non-public; otherwise the grade
must be listed in the record's `allowed_grades`. -/
def allowed (user_grade : Option String) (rec : PolicyRec) : Bool :=
  if rec.visibilityD = "public" then true
  else if user_grade = none || user_grade = some "" then false
  else rec.gradesD.contains (user_grade.getD "")

/-- Python `str.split()` — split on whitespace runs, dropping empties. -/
def pySplitWs (s : String) : List String :=
  (s.split Char.isWhitespace).filter (fun t => t ≠ "")

/-- The keyword score of one record against the lowered query: the number
of query tokens occurring in the record's text-plus-tags blob. -/
def recScore (q : String) (rec : PolicyRec) : Nat :=
  let text := (rec.chunkTextF.getD "" ++ " " ++
    String.intercalate " " (rec.tagsF.getD [])).toLower
  ((pySplitWs q).filter (fun tok => strContains text tok)).length

/-- `get_chunks(query, user_grade)`: keep the visible records with a
positive keyword score, sort them by score descending (stably, as
Python's `sort(..., reverse=True)` does) and return the top 5. -/
def local_get_chunks (policies : List PolicyRec) (query : String)
    (user_grade : Option String) : List PolicyRec :=
  let q := query.toLower
  let scored := policies.filterMap (fun r =>
    if allowed user_grade r then
      let score := recScore q r
      if score > 0 then some (score, r) else none
    else none)
  let sorted := scored.mergeSort (fun a b => b.1 ≤ a.1)
  (sorted.take 5).map (fun p => p.2)

end Aegis

namespace Aegis

/-! ## `retrieval/azure_retriever.py` — grade normalization and the
server-side visibility filter -/

/-- Python `str.strip()` at the character-list level: drop whitespace from
both ends. -/
def stripList (l : List Char) : List Char :=
  ((l.dropWhile Char.isWhitespace).reverse.dropWhile Char.isWhitespace).reverse

/-- Python `str.strip()`. -/
def pyStrip (s : String) : String :=
  ⟨stripList s.toList⟩

/-- `_normalize_grade(g)` from `azure_retriever.py`: `(g or "").strip()` —
a falsy grade becomes the empty string, then surrounding whitespace is
removed. -/
def normalize_grade (g : Option String) : String :=
  pyStrip (match g with
           | none => ""
           | some s => if s = "" then "" else s)

/-- The chunk fields the Azure search filter inspects. -/
structure AzChunk where
  visibility : String
  allowed_grades : List String
deriving DecidableEq, Repr

/-- The predicate denoted by the OData filter string built by
`_policy_filter_for_grade(g)` — `(visibility ne 'restricted') or
(visibility eq 'restricted' and allowed_grades/any(x: x eq g))` — applied
to one indexed chunk. -/
def policy_filter_for_grade (g : String) (c : AzChunk) : Bool :=
  (c.visibility ≠ "restricted") ||
    (c.visibility = "restricted" && c.allowed_grades.contains g)

/-- Modelled from the spec's words for comparison: `isVisible(chunk,
grade)` — true if the chunk's visibility is not `restricted`, or it is
`restricted` and the grade is a member of its `allowed_grades`. Stated
over the raw visibility string and grade list so both retrievers can be
compared with it. -/
def isVisibleSpec (visibility : String) (grades : List String)
    (grade : String) : Bool :=
  (visibility ≠ "restricted") ||
    (visibility = "restricted" && grades.contains grade)

end Aegis

namespace Aegis

/-! ## `api/main.py` — confidence blending

`_compute_confidence` is arithmetic on Python floats; it is embedded over
the rationals, with `round(x, 2)` embedded as round-half-to-even on the
exact value (the rounding mode Python's `round` implements). -/

/-- Round-half-to-even to the nearest integer (Python's `round(x)`). -/
def roundHalfEven (x : ℚ) : ℤ :=
  let f := x.floor
  let frac := x - (f : ℚ)
  if frac < 1/2 then f
  else if 1/2 < frac then f + 1
  else if f % 2 = 0 then f else f + 1

/-- Python `round(x, 2)` on the exact value. -/
def round2 (x : ℚ) : ℚ :=
  (roundHalfEven (x * 100) : ℚ) / 100

/-- `_compute_confidence(chunks, judge_score, restricted_removed)`:
retrieval heuristic `0.35 + 0.1·min(len(chunks), 5)` capped at `0.9`,
minus `0.05` when restricted material was withheld, blended half-and-half
with the judge score — where `float(judge_score or 0.6)` replaces a falsy
(zero) judge score by the default `0.6` — then clamped to `[0, 1]` and
rounded to two decimals. -/
def compute_confidence {α : Type} (chunks : List α) (judge_score : ℚ)
    (restricted_removed : ℕ) : ℚ :=
  let base : ℚ := 0.35 + ((min chunks.length 5 : ℕ) : ℚ) * 0.1
  let base := min base 0.9
  let base := if restricted_removed > 0 then base - 0.05 else base
  let conf := 0.5 * base +
    0.5 * (if judge_score = 0 then 0.6 else judge_score)
  round2 (max 0 (min conf 1))

/-- Modelled from the spec's words for comparison: `base = min(0.35 +
0.1 * min(chunkCount, 5), 0.9)`, minus `0.05` if a restricted probe was
detected; `confidence = clamp(0.5*base + 0.5*judgeScore, 0, 1)` rounded to
2 decimal places. -/
def confidenceSpec (chunkCount : ℕ) (judgeScore : ℚ) (probe : Bool) : ℚ :=
  let base : ℚ := min (0.35 + 0.1 * ((min chunkCount 5 : ℕ) : ℚ)) 0.9
  let base := if probe then base - 0.05 else base
  round2 (max 0 (min (0.5 * base + 0.5 * judgeScore) 1))

/-! ## `api/main.py` — risk-reason assembly in `ask`

```
risky_pat = match_risky_intent(req.query)
reasons = []
if risky_pat: reasons.append(f"risky_intent:{risky_pat}")
if not chunks and restricted_count > 0: reasons.append("restricted_probe")
```
-/

/-- The reasons list `ask` assembles from the intent match, the visible
chunks and the restricted-hit count. -/
def buildReasons {α : Type} (risky_pat : Option String) (chunks : List α)
    (restricted_count : ℕ) : List String :=
  let reasons : List String := []
  let reasons := match risky_pat with
    | some p => reasons ++ ["risky_intent:" ++ p]
    | none => reasons
  if chunks.isEmpty && restricted_count > 0 then
    reasons ++ ["restricted_probe"]
  else reasons

/-! ## `api/main.py` — `count_restricted_hits`

`main.py` defines `count_restricted_hits` after importing the
`azure_retriever` one, so this later definition is the one bound at the
call site in `ask`. It searches the restricted-only subset with
`select=["policy_id", "clause_id"]` and builds its metadata from those two
fields alone. The external search backend enters as the result list; a
missing configuration short-circuits to `(0, [])`. -/

/-- A document of the restricted-only search as the loop body reads it
(the robust `getattr(...) or r.get(...)` extraction makes both identifier
fields optional); `clause_text` is carried to state that the function
never reads it. -/
structure SearchDoc where
  policy_id : Option String
  clause_id : Option String
  clause_text : String
deriving DecidableEq, Repr

/-- One `{"policy_id": ..., "clause_id": ...}` metadata entry. The type
has no text field: the embedded function cannot put clause text in it. -/
structure HitMeta where
  policy_id : Option String
  clause_id : Option String
deriving DecidableEq, Repr

/-- The `count_restricted_hits(query)` of `api/main.py`: without search
configuration return `(0, [])`; otherwise count the returned documents and
record only their `policy_id`/`clause_id` pair. -/
def count_restricted_hits (configured : Bool) (results : List SearchDoc) :
    ℕ × List HitMeta :=
  if !configured then (0, [])
  else
    results.foldl
      (fun acc r =>
        (acc.1 + 1, acc.2 ++ [{ policy_id := r.policy_id
                                clause_id := r.clause_id }]))
      (0, [])

end Aegis

namespace Aegis

/-! ## `api/main.py` — `apply_rule` (`POST /rules/apply`)

`apply_rule` parses the request YAML, validates it, re-reads the rules
file, rejects a duplicate id with HTTP 409 *before* touching the file or
the in-memory cache, and otherwise appends, writes the file back and
hot-reloads the cache from it. The YAML parses and the file system enter
as already-parsed `Value`s; the result carries the (possibly updated) file
document and in-memory rule list next to the HTTP outcome. -/

/-- `_validate_rule_dict(d)`: report each missing recommended key, then
shape hints for `match`, `conditions` and `remediation`. -/
def validate_rule_dict (d : Dict) : List String :=
  let required := ["id", "name", "description", "match", "conditions",
    "severity", "risk_points", "remediation"]
  let warns := required.filterMap (fun k =>
    if !dictHas d k then some ("Missing key: " ++ k) else none)
  let warns := warns ++
    (if dictHas d "match" ∧
        !(match dictGet d "match" with | .vDict _ => true | _ => false) then
      ["match should be an object with arrays like actions/roles/systems/locations/status."]
    else [])
  let warns := warns ++
    (if dictHas d "conditions" ∧
        !(match dictGet d "conditions" with | .vDict _ => true | _ => false) then
      ["conditions should be an object (e.g., shift_hours_gt, last_30d_failed_logins_gt, window_minutes, logic)."]
    else [])
  warns ++
    (if dictHas d "remediation" ∧
        !(match dictGet d "remediation" with | .vList _ => true | _ => false) then
      ["remediation should be a list of steps."]
    else [])

/-- How `apply_rule` can fail: the request YAML is not a single object
(HTTP 500 via `ValueError`), the rules file document cannot take a
`rules` list (HTTP 500 via `TypeError`), or the rule id already exists
(HTTP 409). -/
inductive ApplyErr where
  | notOneObject : ApplyErr
  | badFileDoc : ApplyErr
  | duplicateId : Option Value → ApplyErr
deriving Repr

/-- Membership of an optional id in the set of existing ids, using the
embedded Python equality. -/
def idMem (ids : List (Option Value)) (i : Option Value) : Bool :=
  ids.any (fun j =>
    match j, i with
    | none, none => true
    | some a, some b => Value.beq a b
    | _, _ => false)

/-- The ids of the file's rules: `{r.get("id") for r in doc["rules"] if
isinstance(r, dict)}`. -/
def existingIds (rulesList : List Value) : List (Option Value) :=
  rulesList.filterMap (fun r =>
    match r with
    | .vDict d => some (dictGet? d "id")
    | _ => none)

/-- The `rules` list of the rules-file document — the code coerces a
missing or non-list `doc["rules"]` to `[]`. -/
def fileRulesList (docKvs : List (String × Value)) : List Value :=
  match dictGet? docKvs "rules" with
  | some (.vList xs) => xs
  | _ => []

/-- Outcome of one `apply_rule` call: the rules-file document, the
in-memory rule cache, and the HTTP result (ok message or error). -/
structure ApplyResult where
  fileDoc : Value
  memRules : List Value
  outcome : Except ApplyErr String
deriving Repr

/-- The HTTP status each `apply_rule` outcome is surfaced with: success
200, duplicate id 409 (conflict), shape errors 500. -/
def httpStatus : Except ApplyErr String → ℕ
  | .ok _ => 200
  | .error (.duplicateId _) => 409
  | .error _ => 500

/-- `apply_rule(req)` over an already-parsed request YAML `reqYaml`, rules
file document `fileDoc` (the `yaml.safe_load(f) or {}` of the file) and
in-memory cache `memRules`. -/
def apply_rule (fileDoc : Value) (memRules : List Value) (reqYaml : Value) :
    ApplyResult :=
  match reqYaml with
  | .vDict newRule =>
    let warns := validate_rule_dict newRule
    let doc := if truthy fileDoc then fileDoc else .vDict []
    match doc with
    | .vDict docKvs =>
      let rulesList := fileRulesList docKvs
      if idMem (existingIds rulesList) (dictGet? newRule "id") then
        { fileDoc := fileDoc, memRules := memRules
          outcome := .error (.duplicateId (dictGet? newRule "id")) }
      else
        let rulesList' := rulesList ++ [.vDict newRule]
        let doc' := Value.vDict (dictSet docKvs "rules" (.vList rulesList'))
        let msg := "Saved to rules.yaml" ++
          (if warns.isEmpty then ""
           else " (warnings: " ++ joinComma warns ++ ")")
        { fileDoc := doc', memRules := rulesList', outcome := .ok msg }
    | _ =>
      { fileDoc := fileDoc, memRules := memRules
        outcome := .error .badFileDoc }
  | _ =>
    { fileDoc := fileDoc, memRules := memRules
      outcome := .error .notOneObject }

end Aegis

namespace Aegis

/-! ## Concrete scenario inputs -/

/-- The ISO-8601 hour extraction (`_parse_iso(ts).hour`) restricted to the
demo timestamps used by the spec's scenarios. -/
def hourOfDemo : String → Option Int := fun ts =>
  if ts = "2025-01-01T23:10:00Z" then some 23
  else if ts = "2025-01-01T02:15:00Z" then some 2
  else if ts = "2025-01-01T10:00:00Z" then some 10
  else none

/-- A regex collaborator; the scenario rule has no regex condition, so it
is never consulted. -/
def rxNone : String → String → Bool := fun _ _ => false

/-- The scenario rule: `action in [login]`, `status equals failed`,
`between_hours(22, 6)`, combined with `all`. -/
def scenarioRule : EngineRule :=
  { whenClause :=
    { allConds := some
        [ { field := "action", op := "in", value := .vList [.vStr "login"] },
          { field := "status", op := "equals", value := .vStr "failed" },
          { field := "timestamp", op := "between_hours",
            value := .vList [.vInt 22, .vInt 6] } ]
      anyConds := none } }

/-- The scenario rule as the dictionary the rule cache would hold. -/
def scenarioRuleDoc : Value :=
  .vDict
    [ ("id", .vStr "R-OFFHOURS"),
      ("risk_points", .vInt 70),
      ("when", .vDict
        [ ("all", .vList
            [ .vDict [("field", .vStr "action"), ("op", .vStr "in"),
                ("value", .vList [.vStr "login"])],
              .vDict [("field", .vStr "status"), ("op", .vStr "equals"),
                ("value", .vStr "failed")],
              .vDict [("field", .vStr "timestamp"),
                ("op", .vStr "between_hours"),
                ("value", .vList [.vInt 22, .vInt 6])] ]) ]) ]

/-- The scenario event:
`{action: login, status: failed, role: Cabin Crew, timestamp: 23:10Z}`. -/
def scenarioEvent : Dict :=
  [ ("event_id", .vStr "E1"),
    ("action", .vStr "login"),
    ("status", .vStr "failed"),
    ("role", .vStr "Cabin Crew"),
    ("timestamp", .vStr "2025-01-01T23:10:00Z") ]

/-- A restricted local-retriever record with `allowed_grades = ["G3"]`. -/
def restrictedG3Rec : PolicyRec :=
  { visibilityF := some "restricted", allowedGradesF := some ["G3"],
    chunkTextF := none, tagsF := none }

/-- A restricted indexed chunk with `allowed_grades = ["G3"]`. -/
def restrictedG3Az : AzChunk :=
  { visibility := "restricted", allowed_grades := ["G3"] }

end Aegis

namespace Aegis

/-! ## Helper lemmas -/

/-- A fold whose body ignores the element keeps its accumulator. -/
theorem foldl_keep {α β : Type} : ∀ (l : List α) (b : β),
    l.foldl (fun acc _ => acc) b = b
  | [], _ => rfl
  | _ :: xs, b => foldl_keep xs b

/-- `dropWhile` is idempotent. -/
theorem dropWhile_idem {α : Type} (p : α → Bool) (l : List α) :
    (l.dropWhile p).dropWhile p = l.dropWhile p := by
  induction l with
  | nil => rfl
  | cons a l ih =>
    by_cases h : p a <;> simp [List.dropWhile_cons, h, ih]

/-- The head of a `dropWhile p` result does not satisfy `p`. -/
theorem head?_dropWhile_false {α : Type} (p : α → Bool) (l : List α)
    (a : α) (h : (l.dropWhile p).head? = some a) : p a = false := by
  have := List.head?_dropWhile_not p l
  rw [h] at this
  exact this

/-- A list whose head fails `p` is fixed by `dropWhile p`. -/
theorem dropWhile_eq_self_of_head {α : Type} (p : α → Bool) (l : List α)
    (h : ∀ a, l.head? = some a → p a = false) : l.dropWhile p = l := by
  cases l with
  | nil => rfl
  | cons a l => simp [List.dropWhile_cons, h a rfl]

end Aegis

namespace Aegis

/-! ## Claim theorems -/

/-- C2: for every input list of events and every rule-cache contents,
`analyze_events` returns the empty list — the per-rule matching loop body
is a no-op placeholder, so `matched_signals` is always empty and no
anomaly dictionary is ever appended. -/
theorem analyze_events_always_empty (rules : List Value)
    (events : List Dict) : analyze_events rules events = [] := by
  unfold analyze_events
  induction events with
  | nil => rfl
  | cons ev evs ih =>
    simp [List.foldl_cons, foldl_keep, ih]

/-- C1: the claim fails on the code — the scenario rule (`action in
[login]`, `status equals failed`, `between_hours(22,6)` under `all`)
matches the scenario event according to `eval_rule`, yet `analyze_events`
run with that rule in the cache emits no anomaly for the event, because
its matching loop is a dead placeholder. -/
theorem analyze_events_drops_matching_event :
    eval_rule rxNone hourOfDemo scenarioRule scenarioEvent = some true ∧
    analyze_events [scenarioRuleDoc] [scenarioEvent] = [] := by
  constructor
  · simp +decide [eval_rule, scenarioRule, evalAll, check, scenarioEvent,
      fieldLookup, dictGet, dictGet?, pyMem, Value.beq, orZero, orEmpty,
      between_hours, hourOfDemo]
  · rfl

/-- C10: `between_hours` yields the hour-window test on the hour the
timestamp parser extracts: the half-open window `[start, end)` when
`start ≤ end`, and the midnight-wrapping union `hour ≥ start ∨ hour <
end` otherwise (equivalently, the complement of `[end, start)`); in
particular `between_hours(·, 22, 6)` matches the demo timestamps with
hours 23 and 2 and rejects the one with hour 10. -/
theorem between_hours_spec :
    (∀ (hourOf : String → Option Int) (ts : String) (h s e : Int),
      hourOf ts = some h →
      between_hours hourOf ts s e =
        some (if s ≤ e then s ≤ h && h < e else h ≥ s || h < e)) ∧
    (∀ h s e : Int, e < s →
      ((h ≥ s || h < e) = !(e ≤ h && h < s))) ∧
    between_hours hourOfDemo "2025-01-01T23:10:00Z" 22 6 = some true ∧
    between_hours hourOfDemo "2025-01-01T02:15:00Z" 22 6 = some true ∧
    between_hours hourOfDemo "2025-01-01T10:00:00Z" 22 6 = some false := by
  refine ⟨?_, ?_, by decide, by decide, by decide⟩
  · intro hourOf ts h s e hh
    simp only [between_hours, hh]
    split <;> simp
  · intro h s e _
    rw [Bool.eq_iff_iff]
    simp only [Bool.or_eq_true, Bool.and_eq_true, Bool.not_eq_true',
      Bool.and_eq_false_iff, decide_eq_true_eq, decide_eq_false_iff_not,
      ge_iff_le, not_le, not_lt]
    omega

/-- C10 witness: the general window law applied at the demo parser,
timestamp hour 2 and bounds (22, 6). -/
theorem between_hours_spec_witness :
    between_hours hourOfDemo "2025-01-01T02:15:00Z" 22 6 =
      some (if (22 : Int) ≤ 6 then 22 ≤ (2 : Int) && (2 : Int) < 6
            else (2 : Int) ≥ 22 || (2 : Int) < 6) :=
  between_hours_spec.1 hourOfDemo "2025-01-01T02:15:00Z" 2 22 6 (by decide)

/-- A `risky_intent:` reason can never collide with the
`restricted_probe` reason string. -/
theorem risky_prefix_ne (p : String) :
    "risky_intent:" ++ p ≠ "restricted_probe" := by
  intro h
  have h2 := congrArg String.data h
  simp [String.data_append] at h2

/-- C6: the reasons list `ask` assembles contains `"restricted_probe"`
exactly when no visible chunk was retrieved and the restricted hit count
is positive, whatever the risky-intent detector returned. -/
theorem restricted_probe_iff {α : Type} (risky_pat : Option String)
    (chunks : List α) (rc : ℕ) :
    "restricted_probe" ∈ buildReasons risky_pat chunks rc ↔
      chunks = [] ∧ 0 < rc := by
  have hiff : (chunks.isEmpty && decide (rc > 0)) = true ↔
      chunks = [] ∧ 0 < rc := by
    simp [List.isEmpty_iff]
  unfold buildReasons
  cases risky_pat with
  | none =>
    by_cases hb : (chunks.isEmpty && decide (rc > 0)) = true
    · rw [if_pos hb]
      simp [hiff.1 hb]
    · rw [if_neg hb]
      simp only [List.not_mem_nil, false_iff]
      exact fun hcon => hb (hiff.2 hcon)
  | some p =>
    by_cases hb : (chunks.isEmpty && decide (rc > 0)) = true
    · rw [if_pos hb]
      simp [hiff.1 hb]
    · rw [if_neg hb]
      simp only [List.nil_append, List.mem_singleton, false_iff,
        (risky_prefix_ne p).symm]
      exact fun hcon => hb (hiff.2 hcon)

end Aegis

namespace Aegis

/-! ## Properties of `pyStrip` (for C7) -/

/-- What `stripList` keeps is a contiguous run of the input. -/
theorem stripList_infix (l : List Char) : stripList l <:+: l := by
  have h1 : l.dropWhile Char.isWhitespace <:+ l := List.dropWhile_suffix _
  have h2 : (l.dropWhile Char.isWhitespace).reverse.dropWhile
      Char.isWhitespace <:+ (l.dropWhile Char.isWhitespace).reverse :=
    List.dropWhile_suffix _
  have h3 := List.reverse_prefix.2 h2
  rw [List.reverse_reverse] at h3
  exact h3.isInfix.trans h1.isInfix

/-- The first character surviving `stripList` is not whitespace. -/
theorem stripList_head_not_ws (l : List Char) (c : Char)
    (h : (stripList l).head? = some c) : c.isWhitespace = false := by
  unfold stripList at h
  rw [List.head?_reverse] at h
  obtain ⟨u, hu⟩ :=
    List.dropWhile_suffix (l := (l.dropWhile Char.isWhitespace).reverse)
      Char.isWhitespace
  have hYr : (l.dropWhile Char.isWhitespace).reverse.getLast? = some c := by
    rw [← hu, List.getLast?_append, h]
    rfl
  rw [List.getLast?_reverse] at hYr
  exact head?_dropWhile_false _ _ _ hYr

/-- The last character surviving `stripList` is not whitespace. -/
theorem stripList_getLast_not_ws (l : List Char) (c : Char)
    (h : (stripList l).getLast? = some c) : c.isWhitespace = false := by
  unfold stripList at h
  rw [List.getLast?_reverse] at h
  exact head?_dropWhile_false _ _ _ h

/-- `stripList` is idempotent. -/
theorem stripList_idem (l : List Char) :
    stripList (stripList l) = stripList l := by
  have hA : (stripList l).dropWhile Char.isWhitespace = stripList l :=
    dropWhile_eq_self_of_head _ _ (fun a ha => stripList_head_not_ws l a ha)
  show (((stripList l).dropWhile Char.isWhitespace).reverse.dropWhile
    Char.isWhitespace).reverse = stripList l
  rw [hA]
  have hrev : (stripList l).reverse =
      (l.dropWhile Char.isWhitespace).reverse.dropWhile Char.isWhitespace := by
    unfold stripList
    rw [List.reverse_reverse]
  rw [hrev, dropWhile_idem, ← hrev, List.reverse_reverse]

/-- C7 counterexample: `_normalize_grade` maps `"3"` to `"3"`, not to
`"G3"`, and leaves `"g3"` lowercase — the code neither uppercases nor
prepends the grade-prefix letter. -/
theorem normalize_grade_counterexample :
    normalize_grade (some "3") = "3" ∧ "3" ≠ "G3" ∧
    normalize_grade (some "g3") = "g3" ∧ "g3" ≠ "G3" := by
  refine ⟨?_, by decide, ?_, by decide⟩ <;> decide

/-- C7 amended: `_normalize_grade` only strips — it maps a missing grade
to `""` and otherwise removes exactly the surrounding whitespace: the
result is a contiguous run of the raw string (so nothing is prepended and
no character changes case), starts and ends with non-whitespace, and the
operation is idempotent; `"3"` normalizes to `"3"` and `" g3 "` to
`"g3"`. -/
theorem normalize_grade_trims_only :
    (∀ s : String, normalize_grade (some s) = pyStrip s) ∧
    normalize_grade none = "" ∧
    (∀ g : Option String,
      (normalize_grade g).toList <:+: (g.getD "").toList) ∧
    (∀ g : Option String,
      normalize_grade (some (normalize_grade g)) = normalize_grade g) ∧
    (∀ (g : Option String) (c : Char),
      ((normalize_grade g).toList.head? = some c →
        c.isWhitespace = false) ∧
      ((normalize_grade g).toList.getLast? = some c →
        c.isWhitespace = false)) ∧
    normalize_grade (some "3") = "3" ∧
    normalize_grade (some " g3 ") = "g3" := by
  have hs : ∀ s : String, normalize_grade (some s) = pyStrip s := by
    intro s
    by_cases h : s = "" <;> simp [normalize_grade, h]
  have htl : ∀ g : Option String,
      (normalize_grade g).toList = stripList (g.getD "").toList := by
    intro g
    cases g with
    | none => rfl
    | some s => rw [hs s]; rfl
  refine ⟨hs, rfl, ?_, ?_, ?_, by decide, by decide⟩
  · intro g
    rw [htl g]
    exact stripList_infix _
  · intro g
    rw [hs (normalize_grade g)]
    apply String.ext
    show stripList (normalize_grade g).toList = (normalize_grade g).toList
    rw [htl g, stripList_idem]
  · intro g c
    constructor
    · intro h
      rw [htl g] at h
      exact stripList_head_not_ws _ _ h
    · intro h
      rw [htl g] at h
      exact stripList_getLast_not_ws _ _ h

/-- C7 amended-claim witness: the edge-whitespace clause applied at
`" g3 "` and the character `'g'`. -/
theorem normalize_grade_trims_only_witness : ('g').isWhitespace = false :=
  (normalize_grade_trims_only.2.2.2.2.1 (some " g3 ") 'g').1 (by decide)

end Aegis

namespace Aegis

/-! ## C5 — confidence blending -/

/-- C5 counterexample: at judge score `0` (in the claimed range `[0, 1]`)
the code's `float(judge_score or 0.6)` substitutes the default `0.6`, so
for 3 chunks and no probe the code yields `0.62` while the claimed
formula yields `0.32`. -/
theorem compute_confidence_counterexample :
    compute_confidence ([(), (), ()]) (0 : ℚ) 0 = 0.62 ∧
    confidenceSpec 3 (0 : ℚ) false = 0.32 ∧ (0.62 : ℚ) ≠ 0.32 := by
  refine ⟨?_, ?_, by norm_num⟩
  · unfold compute_confidence round2 roundHalfEven
    norm_num [Rat.floor_def']
  · unfold confidenceSpec round2 roundHalfEven
    norm_num [Rat.floor_def']

/-- C5 amended: for every chunk list, judge score in `[0, 1]` and
restricted-removed count, the computed confidence equals the spec formula
`round2 (clamp (0.5·base + 0.5·judgeScore) 0 1)` with
`base = min (0.35 + 0.1·min(chunkCount, 5)) 0.9` minus `0.05` under a
probe — after a zero judge score is first replaced by the default `0.6`
(the code's `judge_score or 0.6`); in particular chunk count 3, judge
score 0.9 and no probe yield `0.78`. -/
theorem compute_confidence_spec :
    (∀ (α : Type) (chunks : List α) (js : ℚ), 0 ≤ js → js ≤ 1 →
      ∀ rr : ℕ,
      compute_confidence chunks js rr =
        confidenceSpec chunks.length (if js = 0 then 0.6 else js)
          (decide (0 < rr))) ∧
    compute_confidence ([(), (), ()]) (0.9 : ℚ) 0 = 0.78 := by
  constructor
  · intro α chunks js _ _ rr
    unfold compute_confidence confidenceSpec
    by_cases h0 : js = 0 <;> by_cases hrr : 0 < rr <;>
      simp [h0, hrr, mul_comm]
  · unfold compute_confidence round2 roundHalfEven
    norm_num [Rat.floor_def']

/-- C5 amended-claim witness: the general law applied at 3 chunks, judge
score `0.9` (inside `[0, 1]`) and no restricted removal. -/
theorem compute_confidence_spec_witness :
    compute_confidence ([(), (), ()]) (0.9 : ℚ) 0 =
      confidenceSpec 3 (if (0.9 : ℚ) = 0 then 0.6 else 0.9)
        (decide (0 < (0 : ℕ))) :=
  compute_confidence_spec.1 Unit [(), (), ()] 0.9 (by norm_num)
    (by norm_num) 0

end Aegis

namespace Aegis

/-! ## C8 — the restricted-content peek -/

/-- Unrolling the metadata fold of `count_restricted_hits`. -/
theorem count_restricted_hits_core :
    ∀ (res : List SearchDoc) (n : ℕ) (acc : List HitMeta),
    res.foldl
      (fun a r =>
        (a.1 + 1, a.2 ++ [{ policy_id := r.policy_id
                            clause_id := r.clause_id }]))
      (n, acc)
      = (n + res.length,
         acc ++ res.map (fun r => { policy_id := r.policy_id
                                    clause_id := r.clause_id })) := by
  intro res
  induction res with
  | nil => intro n acc; simp
  | cons r rs ih =>
    intro n acc
    simp only [List.foldl_cons, List.map_cons, List.length_cons, ih]
    simp only [Prod.mk.injEq]
    constructor
    · omega
    · simp

/-- C8: `count_restricted_hits` returns a count equal to the number of
metadata entries, its metadata is exactly the `policy_id`/`clause_id`
projection of the search results (a `HitMeta` has no text field), a
missing configuration yields `(0, [])`, and the whole output depends only
on the identifier projection of the results — so the clause text of
restricted documents cannot leak through it. -/
theorem count_restricted_hits_no_leak :
    (∀ (cfg : Bool) (res : List SearchDoc),
      (count_restricted_hits cfg res).1 =
        (count_restricted_hits cfg res).2.length) ∧
    (∀ res : List SearchDoc,
      (count_restricted_hits true res).2 =
        res.map (fun r => { policy_id := r.policy_id
                            clause_id := r.clause_id })) ∧
    (∀ res : List SearchDoc, count_restricted_hits false res = (0, [])) ∧
    (∀ (cfg : Bool) (res res' : List SearchDoc),
      res.map (fun r => (r.policy_id, r.clause_id)) =
        res'.map (fun r => (r.policy_id, r.clause_id)) →
      count_restricted_hits cfg res = count_restricted_hits cfg res') := by
  have hrun : ∀ res : List SearchDoc,
      count_restricted_hits true res =
        (res.length,
         res.map (fun r => { policy_id := r.policy_id
                             clause_id := r.clause_id })) := by
    intro res
    unfold count_restricted_hits
    simp [count_restricted_hits_core res 0 []]
  refine ⟨?_, ?_, ?_, ?_⟩
  · intro cfg res
    cases cfg with
    | false => rfl
    | true => simp [hrun]
  · intro res
    simp [hrun]
  · intro res
    rfl
  · intro cfg res res' hproj
    cases cfg with
    | false => rfl
    | true =>
      rw [hrun, hrun]
      have hlen : res.length = res'.length := by
        have := congrArg List.length hproj
        simpa using this
      have hmap :
          (res.map (fun r => (r.policy_id, r.clause_id))).map
            (fun p => ({ policy_id := p.1, clause_id := p.2 } : HitMeta)) =
          (res'.map (fun r => (r.policy_id, r.clause_id))).map
            (fun p => ({ policy_id := p.1, clause_id := p.2 } : HitMeta)) := by
        rw [hproj]
      simp only [List.map_map] at hmap
      rw [hlen]
      simp only [Prod.mk.injEq, true_and]
      simpa [Function.comp] using hmap

/-- C8 witness: two result lists agreeing on identifiers but holding
different clause text produce the identical `(count, meta)` output. -/
theorem count_restricted_hits_no_leak_witness :
    count_restricted_hits true
        [{ policy_id := some "P1", clause_id := some "C1",
           clause_text := "secret clause body" }] =
      count_restricted_hits true
        [{ policy_id := some "P1", clause_id := some "C1",
           clause_text := "different body" }] :=
  count_restricted_hits_no_leak.2.2.2 true _ _ rfl

end Aegis

namespace Aegis

/-! ## C9 — duplicate rule ids are rejected without mutation -/

/-- C9: appending a rule whose id already exists in the active set (the
in-memory cache, in sync with the rules file as every cache fill reloads
from that file) fails with the duplicate-id conflict surfaced as HTTP
409, and both the persisted rules file and the in-memory active set are
returned unchanged — the conflict check runs before any write. -/
theorem apply_rule_conflict_unchanged (fileDoc : Value)
    (memRules : List Value) (newRule : Dict)
    (docKvs : List (String × Value))
    (hdoc : (if truthy fileDoc then fileDoc else Value.vDict []) =
      .vDict docKvs)
    (hsync : memRules = fileRulesList docKvs)
    (hdup : idMem (existingIds memRules) (dictGet? newRule "id") = true) :
    apply_rule fileDoc memRules (.vDict newRule) =
      { fileDoc := fileDoc, memRules := memRules
        outcome := .error (.duplicateId (dictGet? newRule "id")) } ∧
    httpStatus (apply_rule fileDoc memRules (.vDict newRule)).outcome =
      409 := by
  have hmain : apply_rule fileDoc memRules (.vDict newRule) =
      { fileDoc := fileDoc, memRules := memRules
        outcome := .error (.duplicateId (dictGet? newRule "id")) } := by
    unfold apply_rule
    rw [hdoc]
    rw [hsync] at hdup
    simp only [hdup, if_true]
  exact ⟨hmain, by rw [hmain]; rfl⟩

/-- C9 witness: a one-rule file whose rule has id `R1`, a cache in sync
with it, and an appended rule with the same id `R1`. -/
theorem apply_rule_conflict_unchanged_witness :
    apply_rule (.vDict [("rules", .vList [.vDict [("id", .vStr "R1")]])])
        [.vDict [("id", .vStr "R1")]]
        (.vDict [("id", .vStr "R1"), ("name", .vStr "copy")]) =
      { fileDoc :=
          .vDict [("rules", .vList [.vDict [("id", .vStr "R1")]])]
        memRules := [.vDict [("id", .vStr "R1")]]
        outcome := .error (.duplicateId (some (.vStr "R1"))) } ∧
    httpStatus (apply_rule
        (.vDict [("rules", .vList [.vDict [("id", .vStr "R1")]])])
        [.vDict [("id", .vStr "R1")]]
        (.vDict [("id", .vStr "R1"), ("name", .vStr "copy")])).outcome =
      409 := by
  have h := apply_rule_conflict_unchanged
    (.vDict [("rules", .vList [.vDict [("id", .vStr "R1")]])])
    [.vDict [("id", .vStr "R1")]]
    [("id", .vStr "R1"), ("name", .vStr "copy")]
    [("rules", .vList [.vDict [("id", .vStr "R1")]])]
    (by rfl)
    (by rfl)
    (by simp [idMem, existingIds, fileRulesList, dictGet?, Value.beq])
  simpa [dictGet?] using h

end Aegis

namespace Aegis

/-! ## C3 — publish atomicity of the rule cache -/

/-- The invariant holds in the initial state. -/
theorem cacheInv_init {R : Type} (old new : List R) :
    cacheInv old new (initCache old) := by
  refine ⟨?_, ?_, ?_, ?_, ?_, ?_, ?_, ?_⟩ <;> simp [initCache]

/-- Every enabled step preserves the invariant — the heart of the
argument: the reader can only copy the cache while holding the lock,
which the writer holds throughout clear-and-extend, so the copied value
is the old or the new set in full. -/
theorem cacheInv_step {R : Type} (old new : List R) (t : Tid)
    (s s' : CacheState R) (hinv : cacheInv old new s)
    (hstep : step new t s = some s') : cacheInv old new s' := by
  obtain ⟨wpc, rpc, lock, cache, res⟩ := s
  obtain ⟨h0, h1, h2, h3, h4, hle, hr, hres⟩ := hinv
  dsimp only at h0 h1 h2 h3 h4 hle hr hres
  cases t with
  | w =>
    simp only [step, wStep] at hstep
    interval_cases wpc <;> simp only [] at hstep
    · split at hstep
      · obtain rfl := Option.some.inj hstep
        refine ⟨?_, ?_, ?_, ?_, ?_, ?_, ?_, ?_⟩ <;> simp_all
      · cases hstep
    · obtain rfl := Option.some.inj hstep
      refine ⟨?_, ?_, ?_, ?_, ?_, ?_, ?_, ?_⟩ <;> simp_all
    · obtain rfl := Option.some.inj hstep
      refine ⟨?_, ?_, ?_, ?_, ?_, ?_, ?_, ?_⟩ <;> simp_all
    · obtain rfl := Option.some.inj hstep
      refine ⟨?_, ?_, ?_, ?_, ?_, ?_, ?_, ?_⟩ <;> simp_all
    · cases hstep
  | r =>
    simp only [step, rStep] at hstep
    rcases hrpc : rpc with _ | _ | _ | n
    · subst hrpc
      simp only [] at hstep
      split at hstep
      · obtain rfl := Option.some.inj hstep
        refine ⟨?_, ?_, ?_, ?_, ?_, ?_, ?_, ?_⟩ <;> simp_all
      · cases hstep
    · subst hrpc
      simp only [] at hstep
      obtain rfl := Option.some.inj hstep
      refine ⟨?_, ?_, ?_, ?_, ?_, ?_, ?_, ?_⟩ <;> simp_all
      have hw : wpc = 0 ∨ wpc = 4 := by omega
      rcases hw with hw | hw
      · exact Or.inl (h0 hw)
      · exact Or.inr (h4 hw)
    · subst hrpc
      simp only [] at hstep
      obtain rfl := Option.some.inj hstep
      refine ⟨?_, ?_, ?_, ?_, ?_, ?_, ?_, ?_⟩ <;> simp_all
    · subst hrpc
      simp only [] at hstep
      cases hstep

/-- The invariant is preserved along any valid schedule. -/
theorem runSched_inv {R : Type} (old new : List R) (sched : List Tid) :
    ∀ (s s' : CacheState R), cacheInv old new s →
    runSched new sched s = some s' → cacheInv old new s' := by
  induction sched with
  | nil =>
    intro s s' h hrun
    simp only [runSched] at hrun
    obtain rfl := Option.some.inj hrun
    exact h
  | cons t ts ih =>
    intro s s' h hrun
    simp only [runSched] at hrun
    cases hst : step new t s with
    | none => rw [hst] at hrun; cases hrun
    | some s1 =>
      rw [hst] at hrun
      exact ih s1 s' (cacheInv_step old new t s s1 h hst) hrun

/-- C3 amended: a concurrent `get_rules` never observes a torn rule set —
in every valid interleaving of one `set_rules(new)` publisher with one
reader, starting from cache contents `old`, whatever the reader returns
is the full old set or the full new set, because both operations hold the
same lock for their whole critical section. (The publish itself is an
in-place clear-and-extend of the shared list, not a single-reference
swap; see the counterexample.) -/
theorem get_rules_never_torn {R : Type} (old new : List R)
    (sched : List Tid) (s' : CacheState R)
    (hrun : runSched new sched (initCache old) = some s')
    (v : List R) (hread : s'.readResult = some v) : v = old ∨ v = new := by
  have hinv := runSched_inv old new sched (initCache old) s'
    (cacheInv_init old new) hrun
  have hres := hinv.2.2.2.2.2.2.2
  rw [hread] at hres
  rcases hres with h | h | h
  · cases h
  · exact Or.inl (Option.some.inj h)
  · exact Or.inr (Option.some.inj h)

/-- C3 witness: the schedule that runs the whole publish and then the
whole read; the reader returns the new set `[1]`. -/
theorem get_rules_never_torn_witness :
    ([1] : List ℕ) = [0] ∨ ([1] : List ℕ) = [1] :=
  get_rules_never_torn [0] [1] [.w, .w, .w, .w, .r, .r, .r]
    { wpc := 4, rpc := 3, lock := none, cache := [1],
      readResult := some [1] }
    (by rfl) [1] rfl

/-- C3 counterexample: two writer steps into a publish the shared cache
holds `[]` — neither the old set `[0]` nor the new set `[1]` — so
`set_rules` replaces the set by in-place `clear()`-and-`extend()` of the
shared collection; a swap of a single reference would keep the shared
cell holding a complete rule set at every instant. -/
theorem set_rules_in_place_mutation :
    Option.map CacheState.cache
      (runSched [1] [Tid.w, Tid.w] (initCache ([0] : List ℕ))) =
        some [] ∧
    ([] : List ℕ) ≠ [0] ∧ ([] : List ℕ) ≠ [1] := by
  refine ⟨rfl, by simp, by simp⟩

end Aegis

namespace Aegis

/-! ## C4 — grade-based visibility -/

/-- C4: the Azure server-side filter is exactly the spec predicate
(`visibility ≠ restricted`, or `restricted` with the grade in
`allowed_grades`) at every chunk; the local retriever's `allowed` closure
agrees with that predicate on every record whose visibility is `public`
or `restricted` (the data model's range) and whose grade list does not
contain the empty token; a restricted chunk with `allowed_grades =
["G3"]` is visible under `"G3"` and invisible under `"G2"`, the empty
grade and a missing grade, in both retrievers; and every chunk the local
retriever returns satisfies `allowed`. -/
theorem visibility_predicate :
    (∀ (g : String) (c : AzChunk),
      policy_filter_for_grade g c =
        isVisibleSpec c.visibility c.allowed_grades g) ∧
    (∀ (ug : Option String) (rec : PolicyRec),
      rec.visibilityD = "public" ∨ rec.visibilityD = "restricted" →
      "" ∉ rec.gradesD →
      allowed ug rec =
        isVisibleSpec rec.visibilityD rec.gradesD (ug.getD "")) ∧
    (allowed (some "G3") restrictedG3Rec = true ∧
     allowed (some "G2") restrictedG3Rec = false ∧
     allowed (some "") restrictedG3Rec = false ∧
     allowed none restrictedG3Rec = false ∧
     policy_filter_for_grade "G3" restrictedG3Az = true ∧
     policy_filter_for_grade "G2" restrictedG3Az = false ∧
     policy_filter_for_grade "" restrictedG3Az = false) ∧
    (∀ (policies : List PolicyRec) (q : String) (ug : Option String)
      (r : PolicyRec),
      r ∈ local_get_chunks policies q ug → allowed ug r = true) := by
  refine ⟨fun g c => rfl, ?_, by decide, ?_⟩
  · intro ug rec hvis hng
    unfold allowed isVisibleSpec
    rcases hvis with h | h
    · simp [h]
    · rw [h]
      cases ug with
      | none => simp [hng]
      | some g =>
        by_cases hg : g = ""
        · subst hg
          simp [hng]
        · simp [hg]
  · intro policies q ug r hr
    unfold local_get_chunks at hr
    simp only [List.mem_map] at hr
    obtain ⟨p, hp, rfl⟩ := hr
    have hp2 := List.take_subset 5 _ hp
    have hp3 : p ∈ policies.filterMap (fun rec =>
        if allowed ug rec then
          if recScore q.toLower rec > 0 then
            some (recScore q.toLower rec, rec)
          else none
        else none) :=
      (List.mergeSort_perm _ _).mem_iff.1 hp2
    simp only [List.mem_filterMap] at hp3
    obtain ⟨a, ha, hfa⟩ := hp3
    by_cases hal : allowed ug a
    · rw [if_pos hal] at hfa
      by_cases hsc : recScore q.toLower a > 0
      · rw [if_pos hsc] at hfa
        obtain rfl := Option.some.inj hfa
        exact hal
      · rw [if_neg hsc] at hfa
        cases hfa
    · rw [if_neg hal] at hfa
      cases hfa

/-- C4 witness: the local/spec agreement applied at grade `"G3"` and the
restricted demo record, discharging the visibility-range and
no-empty-token hypotheses there. -/
theorem visibility_predicate_witness :
    allowed (some "G3") restrictedG3Rec =
      isVisibleSpec restrictedG3Rec.visibilityD restrictedG3Rec.gradesD
        ((some "G3").getD "") :=
  visibility_predicate.2.1 (some "G3") restrictedG3Rec
    (Or.inr (by rfl)) (by decide)

end Aegis
